import Mathlib

/-!
Shallow embedding of the rotation-conversion snippets from the clifford
documentation notebook `docs/tutorials/euler-angles.ipynb`.

The notebook works in the 3-dimensional Euclidean geometric algebra Cl(3).
A multivector is stored by its eight coefficients on the ordered basis
`1, e1, e2, e3, e12, e13, e23, e123` (with `e12 = e1*e2` and so on).
The notebook's numeric values are floating-point; the embedding works over
the real numbers, so "up to floating-point tolerance" statements become
exact equalities.
-/

noncomputable section

open Matrix

@[ext]
structure MV where
  s : ℝ
  v1 : ℝ
  v2 : ℝ
  v3 : ℝ
  b12 : ℝ
  b13 : ℝ
  b23 : ℝ
  t : ℝ

namespace MV

def zero : MV := ⟨0, 0, 0, 0, 0, 0, 0, 0⟩

def one : MV := ⟨1, 0, 0, 0, 0, 0, 0, 0⟩

def add (x y : MV) : MV :=
  ⟨x.s + y.s, x.v1 + y.v1, x.v2 + y.v2, x.v3 + y.v3,
   x.b12 + y.b12, x.b13 + y.b13, x.b23 + y.b23, x.t + y.t⟩

def smul (c : ℝ) (x : MV) : MV :=
  ⟨c * x.s, c * x.v1, c * x.v2, c * x.v3, c * x.b12, c * x.b13, c * x.b23, c * x.t⟩

/-- The geometric product of Cl(3) on coefficients, from the multiplication
table of the basis `1, e1, e2, e3, e12, e13, e23, e123` with
`e1^2 = e2^2 = e3^2 = 1`. -/
def mul (x y : MV) : MV where
  s := x.s * y.s + x.v1 * y.v1 + x.v2 * y.v2 + x.v3 * y.v3
      - x.b12 * y.b12 - x.b13 * y.b13 - x.b23 * y.b23 - x.t * y.t
  v1 := x.s * y.v1 + x.v1 * y.s - x.v2 * y.b12 + x.b12 * y.v2
      - x.v3 * y.b13 + x.b13 * y.v3 - x.b23 * y.t - x.t * y.b23
  v2 := x.s * y.v2 + x.v2 * y.s + x.v1 * y.b12 - x.b12 * y.v1
      - x.v3 * y.b23 + x.b23 * y.v3 + x.b13 * y.t + x.t * y.b13
  v3 := x.s * y.v3 + x.v3 * y.s + x.v1 * y.b13 - x.b13 * y.v1
      + x.v2 * y.b23 - x.b23 * y.v2 - x.b12 * y.t - x.t * y.b12
  b12 := x.s * y.b12 + x.b12 * y.s + x.v1 * y.v2 - x.v2 * y.v1
      + x.v3 * y.t + x.t * y.v3 - x.b13 * y.b23 + x.b23 * y.b13
  b13 := x.s * y.b13 + x.b13 * y.s + x.v1 * y.v3 - x.v3 * y.v1
      - x.v2 * y.t - x.t * y.v2 + x.b12 * y.b23 - x.b23 * y.b12
  b23 := x.s * y.b23 + x.b23 * y.s + x.v2 * y.v3 - x.v3 * y.v2
      + x.v1 * y.t + x.t * y.v1 - x.b12 * y.b13 + x.b13 * y.b12
  t := x.s * y.t + x.t * y.s + x.v1 * y.b23 + x.b23 * y.v1
      - x.v2 * y.b13 - x.b13 * y.v2 + x.v3 * y.b12 + x.b12 * y.v3

/-- Grade reversal (the notebook's `~R`): grades 2 and 3 change sign. -/
def rev (x : MV) : MV :=
  ⟨x.s, x.v1, x.v2, x.v3, -x.b12, -x.b13, -x.b23, -x.t⟩

/-- The squared magnitude used by clifford's `abs`: the scalar (grade-0)
part of `x * ~x`. -/
def normSq (x : MV) : ℝ := (mul x (rev x)).s

/-- clifford's `abs(R)`: the magnitude `sqrt` of the scalar part of `R * ~R`. -/
def absMV (x : MV) : ℝ := Real.sqrt (normSq x)

end MV

/-- The basis vector `e1` as a multivector. -/
def e1mv : MV := ⟨0, 1, 0, 0, 0, 0, 0, 0⟩

/-- The basis vector `e2` as a multivector. -/
def e2mv : MV := ⟨0, 0, 1, 0, 0, 0, 0, 0⟩

/-- The basis vector `e3` as a multivector. -/
def e3mv : MV := ⟨0, 0, 0, 1, 0, 0, 0, 0⟩

/-- The basis bivector `e12`. -/
def e12mv : MV := ⟨0, 0, 0, 0, 1, 0, 0, 0⟩

/-- The basis bivector `e23`. -/
def e23mv : MV := ⟨0, 0, 0, 0, 0, 0, 1, 0⟩

theorem normSq_eq (x : MV) :
    MV.normSq x = x.s ^ 2 + x.v1 ^ 2 + x.v2 ^ 2 + x.v3 ^ 2
      + x.b12 ^ 2 + x.b13 ^ 2 + x.b23 ^ 2 + x.t ^ 2 := by
  simp only [MV.normSq, MV.mul, MV.rev]
  ring

theorem normSq_nonneg (x : MV) : 0 ≤ MV.normSq x := by
  rw [normSq_eq]; positivity

/-- Modelled from the spec: the external geometric-algebra library's
multivector exponential `e ** B` (the library `clifford` is not part of this
repository slice), specialised to the pure bivectors the notebook feeds it.
The spec gives the closed form: for a unit bivector `Bhat` with
`Bhat^2 = -1`, `exp(θ·Bhat) = cos θ + sin θ · Bhat`; a bivector `B` of
magnitude `θ = |B|` therefore exponentiates to
`cos θ + (sin θ / θ) · B` (with value `1` at `B = 0`). -/
def mvExp (B : MV) : MV :=
  let θ := Real.sqrt (B.b12 ^ 2 + B.b13 ^ 2 + B.b23 ^ 2)
  ⟨Real.cos θ, 0, 0, 0,
   Real.sin θ / θ * B.b12, Real.sin θ / θ * B.b13, Real.sin θ / θ * B.b23, 0⟩

/-- The notebook's `R_euler(phi, theta, psi)`:
`Rphi = e**(-phi/2.*e12)`, `Rtheta = e**(-theta/2.*e23)`,
`Rpsi = e**(-psi/2.*e12)`, returning `Rphi*Rtheta*Rpsi`. -/
def R_euler (phi theta psi : ℝ) : MV :=
  let Rphi := mvExp (MV.smul (-phi / 2) e12mv)
  let Rtheta := mvExp (MV.smul (-theta / 2) e23mv)
  let Rpsi := mvExp (MV.smul (-psi / 2) e12mv)
  MV.mul (MV.mul Rphi Rtheta) Rpsi

/-- The notebook's initial ortho-normal frame `A = [e1,e2,e3]`. -/
def frameA : Fin 3 → MV := ![e1mv, e2mv, e3mv]

/-- The notebook's frame rotation `B = [R*a*~R for a in A]`. -/
def rotateFrame (R : MV) (F : Fin 3 → MV) : Fin 3 → MV :=
  fun k => MV.mul (MV.mul R (F k)) (MV.rev R)

/-- The notebook's matrix construction
`M = [float(b|a) for b in B for a in A]` reshaped to 3×3: the outer loop
runs over the rotated frame, so entry `(i,j)` is the scalar coefficient of
the product of `rotated i` with `original j` (for the vector arguments the
notebook uses, `float(b|a)` is exactly that scalar coefficient). -/
def frameToMatrix (original rotated : Fin 3 → MV) : Matrix (Fin 3) (Fin 3) ℝ :=
  Matrix.of fun i j => (MV.mul (rotated i) (original j)).s

/-- The notebook's reconstruction of the column frame from a matrix:
`B = [M[0,k]*e1 + M[1,k]*e2 + M[2,k]*e3]` for `k = 0,1,2`. -/
def Bframe (M : Matrix (Fin 3) (Fin 3) ℝ) : Fin 3 → MV := fun k =>
  MV.add (MV.smul (M 0 k) e1mv) (MV.add (MV.smul (M 1 k) e2mv) (MV.smul (M 2 k) e3mv))

/-- The notebook's `R = 1 + sum([A[k]*B[k] for k in range(3)])`. -/
def Scol (M : Matrix (Fin 3) (Fin 3) ℝ) : MV :=
  MV.add MV.one
    (MV.add (MV.mul (frameA 0) (Bframe M 0))
      (MV.add (MV.mul (frameA 1) (Bframe M 1)) (MV.mul (frameA 2) (Bframe M 2))))

/-- The notebook's matrix-to-rotor conversion: `R = R/abs(R)` applied to
`Scol`.  Division of a multivector by the scalar `abs(R)` is multiplication
by its reciprocal; in this exact real-valued model a zero magnitude gives
reciprocal `0` (the floating-point notebook would produce non-finite
garbage there instead). -/
def matrixToRotor (M : Matrix (Fin 3) (Fin 3) ℝ) : MV :=
  MV.smul (MV.absMV (Scol M))⁻¹ (Scol M)

theorem sin_abs_div_abs_mul (α : ℝ) : Real.sin |α| / |α| * α = Real.sin α := by
  rcases lt_trichotomy α 0 with h | h | h
  · have hα : α ≠ 0 := ne_of_lt h
    rw [abs_of_neg h, Real.sin_neg]
    field_simp
  · simp [h]
  · have hα : α ≠ 0 := ne_of_gt h
    rw [abs_of_pos h, div_mul_cancel₀ _ hα]

/-- The spec's elemental rotor in the `e12` plane: `exp(α·e12) = cos α + sin α·e12`. -/
def rotor12 (α : ℝ) : MV := ⟨Real.cos α, 0, 0, 0, Real.sin α, 0, 0, 0⟩

/-- The spec's elemental rotor in the `e23` plane: `exp(α·e23) = cos α + sin α·e23`. -/
def rotor23 (α : ℝ) : MV := ⟨Real.cos α, 0, 0, 0, 0, 0, Real.sin α, 0⟩

theorem mvExp_smul_e12 (α : ℝ) : mvExp (MV.smul α e12mv) = rotor12 α := by
  ext <;>
    simp [mvExp, MV.smul, e12mv, rotor12, Real.sqrt_sq_eq_abs, Real.cos_abs,
      sin_abs_div_abs_mul]

theorem mvExp_smul_e23 (α : ℝ) : mvExp (MV.smul α e23mv) = rotor23 α := by
  ext <;>
    simp [mvExp, MV.smul, e23mv, rotor23, Real.sqrt_sq_eq_abs, Real.cos_abs,
      sin_abs_div_abs_mul]

theorem R_euler_closed (phi theta psi : ℝ) :
    R_euler phi theta psi =
      MV.mul (MV.mul (rotor12 (-(phi / 2))) (rotor23 (-(theta / 2)))) (rotor12 (-(psi / 2))) := by
  unfold R_euler
  rw [show (-phi / 2 : ℝ) = -(phi / 2) by ring, show (-theta / 2 : ℝ) = -(theta / 2) by ring,
    show (-psi / 2 : ℝ) = -(psi / 2) by ring, mvExp_smul_e12, mvExp_smul_e23, mvExp_smul_e12]

/-- C1: `eulerToRotor(phi, theta, psi)` returns exactly the geometric product
`R1*R2*R3` of the elemental rotors `R1 = exp(-(phi/2)·e12)`,
`R2 = exp(-(theta/2)·e23)`, `R3 = exp(-(psi/2)·e12)`, multiplied left to
right, for every triple of real angles. -/
theorem C1_euler_rotor_is_product (phi theta psi : ℝ) :
    R_euler phi theta psi =
      MV.mul (MV.mul (rotor12 (-(phi / 2))) (rotor23 (-(theta / 2)))) (rotor12 (-(psi / 2))) :=
  R_euler_closed phi theta psi

/-- C5: for every triple of real angles, the rotor returned by
`eulerToRotor` has magnitude exactly `1` in real arithmetic. -/
theorem C5_euler_rotor_unit_norm (phi theta psi : ℝ) :
    MV.absMV (R_euler phi theta psi) = 1 := by
  have h : MV.normSq (R_euler phi theta psi) = 1 := by
    rw [R_euler_closed, normSq_eq]
    simp only [MV.mul, rotor12, rotor23]
    have h1 := Real.sin_sq_add_cos_sq (-(phi / 2))
    have h2 := Real.sin_sq_add_cos_sq (-(theta / 2))
    have h3 := Real.sin_sq_add_cos_sq (-(psi / 2))
    linear_combination
      (Real.sin (-(theta / 2)) ^ 2 + Real.cos (-(theta / 2)) ^ 2) *
          (Real.sin (-(psi / 2)) ^ 2 + Real.cos (-(psi / 2)) ^ 2) * h1 +
        (Real.sin (-(psi / 2)) ^ 2 + Real.cos (-(psi / 2)) ^ 2) * h2 + h3
  rw [MV.absMV, h, Real.sqrt_one]

/-- Written from the spec's wording of the matrix-to-rotor steps: the
column frame `B[k] = Σ_i M[i,k]·e_i`, written out as the grade-1
multivector with those coefficients. -/
def BframeSpec (M : Matrix (Fin 3) (Fin 3) ℝ) : Fin 3 → MV := fun k =>
  ⟨0, M 0 k, M 1 k, M 2 k, 0, 0, 0, 0⟩

/-- Written from the spec's wording: `S = 1 + Σ_k A[k]·B[k]` with `A` the
canonical basis `{e1,e2,e3}`. -/
def SSpec (M : Matrix (Fin 3) (Fin 3) ℝ) : MV :=
  MV.add MV.one
    (MV.add (MV.mul e1mv (BframeSpec M 0))
      (MV.add (MV.mul e2mv (BframeSpec M 1)) (MV.mul e3mv (BframeSpec M 2))))

/-- Written from the spec's wording: the rotor is `S / |S|` where `|S|` is
the square root of the scalar part of `S * reverse(S)`. -/
def matrixToRotorSpec (M : Matrix (Fin 3) (Fin 3) ℝ) : MV :=
  MV.smul (Real.sqrt (MV.mul (SSpec M) (MV.rev (SSpec M))).s)⁻¹ (SSpec M)

/-- C2: `matrixToRotor` computes its result by exactly the spec's steps:
reconstruct the column frame `B`, form `S = 1 + Σ_k A[k]·B[k]` over the
canonical basis `A`, and return `S` divided by the square root of the
scalar part of `S * reverse(S)`. -/
theorem C2_matrix_to_rotor_steps (M : Matrix (Fin 3) (Fin 3) ℝ) :
    matrixToRotor M = matrixToRotorSpec M := by
  have hS : Scol M = SSpec M := by
    ext <;>
      simp [Scol, SSpec, Bframe, BframeSpec, frameA, MV.add, MV.mul, MV.smul, MV.one,
        e1mv, e2mv, e3mv]
  unfold matrixToRotor matrixToRotorSpec MV.absMV MV.normSq
  rw [hS]

/-- Closed form of the notebook's `1 + sum([A[k]*B[k] for k in range(3)])`. -/
theorem Scol_eq (M : Matrix (Fin 3) (Fin 3) ℝ) :
    Scol M = ⟨1 + M 0 0 + M 1 1 + M 2 2, 0, 0, 0,
      M 1 0 - M 0 1, M 2 0 - M 0 2, M 2 1 - M 1 2, 0⟩ := by
  ext <;>
    simp [Scol, Bframe, frameA, MV.add, MV.mul, MV.smul, MV.one, e1mv, e2mv, e3mv] <;>
    ring

theorem normSq_eq_zero_iff (x : MV) : MV.normSq x = 0 ↔ x = MV.zero := by
  constructor
  · intro h
    rw [normSq_eq] at h
    ext <;> simp only [MV.zero] <;>
      nlinarith [sq_nonneg x.s, sq_nonneg x.v1, sq_nonneg x.v2, sq_nonneg x.v3,
        sq_nonneg x.b12, sq_nonneg x.b13, sq_nonneg x.b23, sq_nonneg x.t]
  · intro h
    rw [h, normSq_eq]
    norm_num [MV.zero]

/-- The 180°-rotation matrix about `e1`: a proper rotation in the
degenerate set of the closed-form conversion. -/
def M180 : Matrix (Fin 3) (Fin 3) ℝ := !![1, 0, 0; 0, -1, 0; 0, 0, -1]

/-- C3 counterexample: `M180` is a proper rotation with `|S| = 0`, and the
call `matrixToRotor M180` does not fail — it silently returns the garbage
value obtained from dividing by zero (the zero multivector in this model,
NaN components in the floating-point notebook), which is not a unit rotor. -/
theorem C3_counterexample_silent_garbage_at_singularity :
    M180ᵀ * M180 = 1 ∧ M180.det = 1 ∧ MV.absMV (Scol M180) = 0 ∧
      matrixToRotor M180 = MV.zero ∧ MV.normSq (matrixToRotor M180) ≠ 1 := by
  have hz : Scol M180 = MV.zero := by
    rw [Scol_eq]
    ext <;> norm_num [M180, MV.zero, Matrix.vecHead, Matrix.vecTail]
  have habs : MV.absMV (Scol M180) = 0 := by
    rw [MV.absMV, (normSq_eq_zero_iff _).2 hz, Real.sqrt_zero]
  have hout : matrixToRotor M180 = MV.zero := by
    unfold matrixToRotor
    rw [habs, hz]
    ext <;> simp [MV.smul, MV.zero]
  refine ⟨?_, ?_, habs, hout, ?_⟩
  · ext i j
    fin_cases i <;> fin_cases j <;>
      simp [Matrix.mul_apply, Fin.sum_univ_three, M180, Matrix.one_apply,
        Matrix.vecHead, Matrix.vecTail]
  · rw [Matrix.det_fin_three]
    norm_num [M180, Matrix.vecHead, Matrix.vecTail]
  · rw [hout, (normSq_eq_zero_iff _).2 rfl]
    norm_num

/-- C3 amended: `matrixToRotor` performs no degeneracy check; whenever the
normalization denominator `|S|` is zero the division by zero makes it
silently return garbage (the zero multivector in this exact model, NaN in
floating point) instead of raising `DegenerateRotationError`. -/
theorem C3_degenerate_silent_zero (M : Matrix (Fin 3) (Fin 3) ℝ)
    (h : MV.absMV (Scol M) = 0) : matrixToRotor M = MV.zero := by
  have h0 : MV.normSq (Scol M) = 0 := by
    rwa [MV.absMV, Real.sqrt_eq_zero (normSq_nonneg _)] at h
  have hz : Scol M = MV.zero := (normSq_eq_zero_iff _).1 h0
  unfold matrixToRotor
  rw [h, hz]
  ext <;> simp [MV.smul, MV.zero]

/-- Witness for C3's amended theorem at the concrete matrix `M180`. -/
theorem C3_degenerate_silent_zero_witness :
    MV.absMV (Scol M180) = 0 ∧ matrixToRotor M180 = MV.zero := by
  have habs : MV.absMV (Scol M180) = 0 := by
    have hz : Scol M180 = MV.zero := by
      rw [Scol_eq]
      ext <;> norm_num [M180, MV.zero, Matrix.vecHead, Matrix.vecTail]
    rw [MV.absMV, (normSq_eq_zero_iff _).2 hz, Real.sqrt_zero]
  exact ⟨habs, C3_degenerate_silent_zero M180 habs⟩

/-- Grade-1 multivectors: the algebra's vector subspace (the spec's frame
entries). -/
def isVec (x : MV) : Prop :=
  x.s = 0 ∧ x.b12 = 0 ∧ x.b13 = 0 ∧ x.b23 = 0 ∧ x.t = 0

/-- Even multivectors: the subalgebra rotors live in. -/
def isEven (x : MV) : Prop :=
  x.v1 = 0 ∧ x.v2 = 0 ∧ x.v3 = 0 ∧ x.t = 0

/-- The dot product of the vector parts of two multivectors. -/
def dotv (x y : MV) : ℝ := x.v1 * y.v1 + x.v2 * y.v2 + x.v3 * y.v3

/-- C7: for frames of grade-1 vectors, `frameToMatrix(original, rotated)`
has entry `(i,j)` equal to the dot product `rotated[i] · original[j]`,
the grade-0 part of the geometric product of rotated vector `i` with
original vector `j`. -/
theorem C7_frame_matrix_entries (original rotated : Fin 3 → MV)
    (ho : ∀ k, isVec (original k)) (hr : ∀ k, isVec (rotated k)) (i j : Fin 3) :
    frameToMatrix original rotated i j = dotv (rotated i) (original j) := by
  obtain ⟨hs, hb12, hb13, hb23, ht⟩ := ho j
  obtain ⟨hs', hb12', hb13', hb23', ht'⟩ := hr i
  simp [frameToMatrix, MV.mul, dotv, hs, hb12, hb13, hb23, ht, hs', hb12', hb13',
    hb23', ht']

theorem frameA_isVec : ∀ k, isVec (frameA k) := by
  intro k
  fin_cases k <;>
    norm_num [frameA, isVec, e1mv, e2mv, e3mv, Matrix.vecHead, Matrix.vecTail]

/-- Witness for C7 at the canonical frame in both positions, entry (0,0). -/
theorem C7_frame_matrix_entries_witness :
    frameToMatrix frameA frameA 0 0 = dotv (frameA 0) (frameA 0) :=
  C7_frame_matrix_entries frameA frameA frameA_isVec frameA_isVec 0 0

theorem sandwich_isVec (R a : MV) (hR : isEven R) (ha : isVec a) :
    isVec (MV.mul (MV.mul R a) (MV.rev R)) := by
  obtain ⟨h1, h2, h3, h4⟩ := hR
  obtain ⟨g1, g2, g3, g4, g5⟩ := ha
  refine ⟨?_, ?_, ?_, ?_, ?_⟩ <;>
    simp [MV.mul, MV.rev, h1, h2, h3, h4, g1, g2, g3, g4, g5] <;> ring

theorem sandwich_dot (R a b : MV) (hR : isEven R) (ha : isVec a) (hb : isVec b) :
    dotv (MV.mul (MV.mul R a) (MV.rev R)) (MV.mul (MV.mul R b) (MV.rev R)) =
      MV.normSq R ^ 2 * dotv a b := by
  obtain ⟨h1, h2, h3, h4⟩ := hR
  obtain ⟨g1, g2, g3, g4, g5⟩ := ha
  obtain ⟨f1, f2, f3, f4, f5⟩ := hb
  simp only [dotv, MV.mul, MV.rev, normSq_eq, h1, h2, h3, h4, g1, g2, g3, g4, g5,
    f1, f2, f3, f4, f5]
  ring

/-- C8: rotating an orthonormal grade-1 frame with a unit rotor (an even
multivector of unit magnitude) yields again an orthonormal grade-1 frame;
`rotateFrame` is a pure function of its arguments. -/
theorem C8_rotateFrame_preserves_orthonormality (R : MV) (F : Fin 3 → MV)
    (hR : isEven R) (hRnorm : MV.normSq R = 1) (hF : ∀ k, isVec (F k))
    (hON : ∀ j k, dotv (F j) (F k) = if j = k then 1 else 0) :
    (∀ k, isVec (rotateFrame R F k)) ∧
      ∀ j k, dotv (rotateFrame R F j) (rotateFrame R F k) = if j = k then 1 else 0 := by
  constructor
  · intro k
    exact sandwich_isVec R (F k) hR (hF k)
  · intro j k
    calc dotv (rotateFrame R F j) (rotateFrame R F k)
        = MV.normSq R ^ 2 * dotv (F j) (F k) :=
          sandwich_dot R (F j) (F k) hR (hF j) (hF k)
      _ = dotv (F j) (F k) := by rw [hRnorm]; ring
      _ = if j = k then 1 else 0 := hON j k

theorem frameA_orthonormal :
    ∀ j k, dotv (frameA j) (frameA k) = if j = k then 1 else 0 := by
  intro j k
  fin_cases j <;> fin_cases k <;>
    norm_num [dotv, frameA, e1mv, e2mv, e3mv, Matrix.vecHead, Matrix.vecTail,
      Fin.ext_iff]

/-- Witness for C8 at the identity rotor and the canonical frame. -/
theorem C8_rotateFrame_preserves_orthonormality_witness :
    (∀ k, isVec (rotateFrame MV.one frameA k)) ∧
      ∀ j k, dotv (rotateFrame MV.one frameA j) (rotateFrame MV.one frameA k) =
        if j = k then 1 else 0 :=
  C8_rotateFrame_preserves_orthonormality MV.one frameA
    (by norm_num [isEven, MV.one])
    (by rw [normSq_eq]; norm_num [MV.one])
    frameA_isVec frameA_orthonormal

/-- C9: `eulerToRotor(0,0,0)` is the scalar rotor `1` with no bivector
component, and rotating any frame with the identity rotor `1` returns the
frame unchanged. -/
theorem C9_identity_laws :
    R_euler 0 0 0 = MV.one ∧ ∀ F : Fin 3 → MV, rotateFrame MV.one F = F := by
  constructor
  · rw [R_euler_closed]
    ext <;> norm_num [rotor12, rotor23, MV.mul, MV.one]
  · intro F
    funext k
    ext <;> simp [rotateFrame, MV.mul, MV.rev, MV.one]

theorem normSq_smul (c : ℝ) (x : MV) :
    MV.normSq (MV.smul c x) = c ^ 2 * MV.normSq x := by
  rw [normSq_eq, normSq_eq]
  simp only [MV.smul]
  ring

/-- A non-orthogonal matrix (twice the identity). -/
def M2I : Matrix (Fin 3) (Fin 3) ℝ := !![2, 0, 0; 0, 2, 0; 0, 0, 2]

/-- C6 counterexample: the code performs no input validation.  The
non-orthogonal matrix `2·I` is accepted by `matrixToRotor`, which quietly
returns the identity rotor instead of raising `InvalidInputError`, and
`rotateFrame` accepts the non-unit rotor `2·1`, quietly returning the frame
scaled by `4`. -/
theorem C6_counterexample_no_validation :
    M2Iᵀ * M2I ≠ 1 ∧ matrixToRotor M2I = MV.one ∧
      MV.normSq (MV.smul 2 MV.one) ≠ 1 ∧
      rotateFrame (MV.smul 2 MV.one) frameA = fun k => MV.smul 4 (frameA k) := by
  have hS : Scol M2I = ⟨7, 0, 0, 0, 0, 0, 0, 0⟩ := by
    rw [Scol_eq]
    ext <;> norm_num [M2I, Matrix.vecHead, Matrix.vecTail]
  have habs : MV.absMV (Scol M2I) = 7 := by
    rw [MV.absMV, hS, normSq_eq]
    norm_num
    rw [show (49 : ℝ) = 7 ^ 2 by norm_num, Real.sqrt_sq (by norm_num)]
  refine ⟨?_, ?_, ?_, ?_⟩
  · intro h
    have h00 := congrFun (congrFun h 0) 0
    simp [Matrix.mul_apply, Fin.sum_univ_three, M2I, Matrix.one_apply,
      Matrix.vecHead, Matrix.vecTail] at h00
    norm_num at h00
  · unfold matrixToRotor
    rw [habs, hS]
    ext <;> norm_num [MV.smul, MV.one]
  · rw [normSq_smul, normSq_eq]
    norm_num [MV.one]
  · funext k
    fin_cases k <;> ext <;>
      norm_num [rotateFrame, MV.mul, MV.rev, MV.smul, MV.one, frameA,
        e1mv, e2mv, e3mv, Matrix.vecHead, Matrix.vecTail]

/-- C6 amended: neither function validates its inputs — `matrixToRotor`
normalizes `S` for an arbitrary matrix and `rotateFrame` conjugates with an
arbitrary multivector; in particular whenever `|S| ≠ 0` (orthogonal or not)
`matrixToRotor` simply returns the unit-magnitude multivector `S/|S|`, and
no `InvalidInputError` exists anywhere in the code. -/
theorem C6_no_validation_normalizes_anyway (M : Matrix (Fin 3) (Fin 3) ℝ)
    (h : MV.absMV (Scol M) ≠ 0) : MV.normSq (matrixToRotor M) = 1 := by
  have hn : MV.normSq (Scol M) ≠ 0 := by
    intro h0
    exact h (by rw [MV.absMV, h0, Real.sqrt_zero])
  unfold matrixToRotor
  rw [normSq_smul, MV.absMV, inv_pow, Real.sq_sqrt (normSq_nonneg _)]
  field_simp

/-- Witness for C6's amended theorem at the non-orthogonal matrix `2·I`. -/
theorem C6_no_validation_witness :
    MV.absMV (Scol M2I) ≠ 0 ∧ MV.normSq (matrixToRotor M2I) = 1 := by
  have hS : Scol M2I = ⟨7, 0, 0, 0, 0, 0, 0, 0⟩ := by
    rw [Scol_eq]
    ext <;> norm_num [M2I, Matrix.vecHead, Matrix.vecTail]
  have habs : MV.absMV (Scol M2I) ≠ 0 := by
    rw [MV.absMV, hS, normSq_eq]
    norm_num
  exact ⟨habs, C6_no_validation_normalizes_anyway M2I habs⟩

/-- The scalar consequences of `Mᵀ * M = 1` and `det M = 1` used by the
round-trip proof: orthonormal rows, orthonormal columns, and the cofactor
identities `adjugate M = Mᵀ`. -/
structure OrthoEqs (M : Matrix (Fin 3) (Fin 3) ℝ) : Prop where
  r1 : M 0 0 * M 0 0 + M 0 1 * M 0 1 + M 0 2 * M 0 2 = 1
  r2 : M 1 0 * M 1 0 + M 1 1 * M 1 1 + M 1 2 * M 1 2 = 1
  r3 : M 2 0 * M 2 0 + M 2 1 * M 2 1 + M 2 2 * M 2 2 = 1
  r4 : M 0 0 * M 1 0 + M 0 1 * M 1 1 + M 0 2 * M 1 2 = 0
  r5 : M 0 0 * M 2 0 + M 0 1 * M 2 1 + M 0 2 * M 2 2 = 0
  r6 : M 1 0 * M 2 0 + M 1 1 * M 2 1 + M 1 2 * M 2 2 = 0
  c1 : M 0 0 * M 0 0 + M 1 0 * M 1 0 + M 2 0 * M 2 0 = 1
  c2 : M 0 1 * M 0 1 + M 1 1 * M 1 1 + M 2 1 * M 2 1 = 1
  c3 : M 0 2 * M 0 2 + M 1 2 * M 1 2 + M 2 2 * M 2 2 = 1
  c4 : M 0 0 * M 0 1 + M 1 0 * M 1 1 + M 2 0 * M 2 1 = 0
  c5 : M 0 0 * M 0 2 + M 1 0 * M 1 2 + M 2 0 * M 2 2 = 0
  c6 : M 0 1 * M 0 2 + M 1 1 * M 1 2 + M 2 1 * M 2 2 = 0
  k1 : M 1 1 * M 2 2 - M 1 2 * M 2 1 = M 0 0
  k2 : M 1 2 * M 2 0 - M 1 0 * M 2 2 = M 0 1
  k3 : M 1 0 * M 2 1 - M 1 1 * M 2 0 = M 0 2
  k4 : M 0 2 * M 2 1 - M 0 1 * M 2 2 = M 1 0
  k5 : M 0 0 * M 2 2 - M 0 2 * M 2 0 = M 1 1
  k6 : M 0 1 * M 2 0 - M 0 0 * M 2 1 = M 1 2
  k7 : M 0 1 * M 1 2 - M 0 2 * M 1 1 = M 2 0
  k8 : M 0 2 * M 1 0 - M 0 0 * M 1 2 = M 2 1
  k9 : M 0 0 * M 1 1 - M 0 1 * M 1 0 = M 2 2

theorem orthoEqs (M : Matrix (Fin 3) (Fin 3) ℝ) (hM : Mᵀ * M = 1)
    (hdet : M.det = 1) : OrthoEqs M := by
  have hMM : M * Mᵀ = 1 := Matrix.mul_eq_one_comm.mp hM
  have hadj : M.adjugate = Mᵀ := by
    have h1 : M.adjugate * (M * Mᵀ) = M.adjugate := by rw [hMM, mul_one]
    rw [← Matrix.mul_assoc, Matrix.adjugate_mul, hdet, one_smul, one_mul] at h1
    exact h1.symm
  have hA3 := Matrix.adjugate_fin_three M
  rw [hadj] at hA3
  refine ⟨?_, ?_, ?_, ?_, ?_, ?_, ?_, ?_, ?_, ?_, ?_, ?_,
    ?_, ?_, ?_, ?_, ?_, ?_, ?_, ?_, ?_⟩
  · have h := congrFun (congrFun hMM 0) 0
    norm_num [Matrix.mul_apply, Fin.sum_univ_three, Matrix.one_apply, Fin.ext_iff] at h
    linear_combination h
  · have h := congrFun (congrFun hMM 1) 1
    norm_num [Matrix.mul_apply, Fin.sum_univ_three, Matrix.one_apply, Fin.ext_iff] at h
    linear_combination h
  · have h := congrFun (congrFun hMM 2) 2
    norm_num [Matrix.mul_apply, Fin.sum_univ_three, Matrix.one_apply, Fin.ext_iff] at h
    linear_combination h
  · have h := congrFun (congrFun hMM 0) 1
    norm_num [Matrix.mul_apply, Fin.sum_univ_three, Matrix.one_apply, Fin.ext_iff] at h
    linear_combination h
  · have h := congrFun (congrFun hMM 0) 2
    norm_num [Matrix.mul_apply, Fin.sum_univ_three, Matrix.one_apply, Fin.ext_iff] at h
    linear_combination h
  · have h := congrFun (congrFun hMM 1) 2
    norm_num [Matrix.mul_apply, Fin.sum_univ_three, Matrix.one_apply, Fin.ext_iff] at h
    linear_combination h
  · have h := congrFun (congrFun hM 0) 0
    norm_num [Matrix.mul_apply, Fin.sum_univ_three, Matrix.one_apply, Fin.ext_iff] at h
    linear_combination h
  · have h := congrFun (congrFun hM 1) 1
    norm_num [Matrix.mul_apply, Fin.sum_univ_three, Matrix.one_apply, Fin.ext_iff] at h
    linear_combination h
  · have h := congrFun (congrFun hM 2) 2
    norm_num [Matrix.mul_apply, Fin.sum_univ_three, Matrix.one_apply, Fin.ext_iff] at h
    linear_combination h
  · have h := congrFun (congrFun hM 0) 1
    norm_num [Matrix.mul_apply, Fin.sum_univ_three, Matrix.one_apply, Fin.ext_iff] at h
    linear_combination h
  · have h := congrFun (congrFun hM 0) 2
    norm_num [Matrix.mul_apply, Fin.sum_univ_three, Matrix.one_apply, Fin.ext_iff] at h
    linear_combination h
  · have h := congrFun (congrFun hM 1) 2
    norm_num [Matrix.mul_apply, Fin.sum_univ_three, Matrix.one_apply, Fin.ext_iff] at h
    linear_combination h
  · have h := congrFun (congrFun hA3 0) 0
    norm_num [Matrix.transpose_apply, Matrix.vecHead, Matrix.vecTail] at h
    linear_combination -h
  · have h := congrFun (congrFun hA3 1) 0
    norm_num [Matrix.transpose_apply, Matrix.vecHead, Matrix.vecTail] at h
    linear_combination -h
  · have h := congrFun (congrFun hA3 2) 0
    norm_num [Matrix.transpose_apply, Matrix.vecHead, Matrix.vecTail] at h
    linear_combination -h
  · have h := congrFun (congrFun hA3 0) 1
    norm_num [Matrix.transpose_apply, Matrix.vecHead, Matrix.vecTail] at h
    linear_combination -h
  · have h := congrFun (congrFun hA3 1) 1
    norm_num [Matrix.transpose_apply, Matrix.vecHead, Matrix.vecTail] at h
    linear_combination -h
  · have h := congrFun (congrFun hA3 2) 1
    norm_num [Matrix.transpose_apply, Matrix.vecHead, Matrix.vecTail] at h
    linear_combination -h
  · have h := congrFun (congrFun hA3 0) 2
    norm_num [Matrix.transpose_apply, Matrix.vecHead, Matrix.vecTail] at h
    linear_combination -h
  · have h := congrFun (congrFun hA3 1) 2
    norm_num [Matrix.transpose_apply, Matrix.vecHead, Matrix.vecTail] at h
    linear_combination -h
  · have h := congrFun (congrFun hA3 2) 2
    norm_num [Matrix.transpose_apply, Matrix.vecHead, Matrix.vecTail] at h
    linear_combination -h

set_option maxHeartbeats 1000000 in
theorem smul_sandwich (c : ℝ) (x a : MV) :
    MV.mul (MV.mul (MV.smul c x) a) (MV.rev (MV.smul c x)) =
      MV.smul (c ^ 2) (MV.mul (MV.mul x a) (MV.rev x)) := by
  ext <;> simp only [MV.mul, MV.smul, MV.rev] <;> ring

theorem mul_smul_left (c : ℝ) (x y : MV) :
    MV.mul (MV.smul c x) y = MV.smul c (MV.mul x y) := by
  ext <;> simp only [MV.mul, MV.smul] <;> ring

theorem smul_s (c : ℝ) (x : MV) : (MV.smul c x).s = c * x.s := rfl

theorem normSq_Scol (M : Matrix (Fin 3) (Fin 3) ℝ) :
    MV.normSq (Scol M) = (1 + M 0 0 + M 1 1 + M 2 2) ^ 2 + (M 1 0 - M 0 1) ^ 2
      + (M 2 0 - M 0 2) ^ 2 + (M 2 1 - M 1 2) ^ 2 := by
  rw [Scol_eq, normSq_eq]
  norm_num

/-- C4: for every proper rotation matrix `M` (orthogonal with determinant
`+1`) outside the 180°-singularity set (`|S| ≠ 0`), converting `M` to a
rotor with `matrixToRotor` and reconstructing a matrix from that rotor by
rotating the canonical frame with `rotateFrame` and reading entries off
with `frameToMatrix` reproduces `M` exactly (real arithmetic). -/
theorem C4_matrix_rotor_roundtrip (M : Matrix (Fin 3) (Fin 3) ℝ)
    (hM : Mᵀ * M = 1) (hdet : M.det = 1) (hS : MV.absMV (Scol M) ≠ 0) :
    frameToMatrix frameA (rotateFrame (matrixToRotor M) frameA) = M := by
  obtain E := orthoEqs M hM hdet
  have hN : MV.normSq (Scol M) ≠ 0 := by
    intro h0
    exact hS (by rw [MV.absMV, h0, Real.sqrt_zero])
  have hc2 : ((MV.absMV (Scol M))⁻¹) ^ 2 = (MV.normSq (Scol M))⁻¹ := by
    rw [inv_pow, MV.absMV, Real.sq_sqrt (normSq_nonneg _)]
  have h00 : frameToMatrix frameA (rotateFrame (matrixToRotor M) frameA) 0 0 = M 0 0 := by
    simp only [frameToMatrix, Matrix.of_apply, rotateFrame, matrixToRotor]
    rw [smul_sandwich, mul_smul_left, smul_s, hc2, inv_mul_eq_iff_eq_mul₀ hN,
      normSq_Scol, Scol_eq]
    simp [MV.mul, MV.rev, frameA, e1mv, e2mv, e3mv, Matrix.vecHead, Matrix.vecTail]
    linear_combination (-1) * E.r1 - 2 * E.c1 + E.r2 + E.r3 + 2 * E.k1 - 2 * E.k5
      - 2 * E.k9 - M 0 0 * (E.r1 + E.r2 + E.r3 + 2 * E.k1 + 2 * E.k5 + 2 * E.k9)
  have h01 : frameToMatrix frameA (rotateFrame (matrixToRotor M) frameA) 0 1 = M 0 1 := by
    simp only [frameToMatrix, Matrix.of_apply, rotateFrame, matrixToRotor]
    rw [smul_sandwich, mul_smul_left, smul_s, hc2, inv_mul_eq_iff_eq_mul₀ hN,
      normSq_Scol, Scol_eq]
    simp [MV.mul, MV.rev, frameA, e1mv, e2mv, e3mv, Matrix.vecHead, Matrix.vecTail]
    linear_combination (-2) * E.r4 - 2 * E.c4 + 2 * E.k2 + 2 * E.k4
      - M 0 1 * (E.r1 + E.r2 + E.r3 + 2 * E.k1 + 2 * E.k5 + 2 * E.k9)
  have h02 : frameToMatrix frameA (rotateFrame (matrixToRotor M) frameA) 0 2 = M 0 2 := by
    simp only [frameToMatrix, Matrix.of_apply, rotateFrame, matrixToRotor]
    rw [smul_sandwich, mul_smul_left, smul_s, hc2, inv_mul_eq_iff_eq_mul₀ hN,
      normSq_Scol, Scol_eq]
    simp [MV.mul, MV.rev, frameA, e1mv, e2mv, e3mv, Matrix.vecHead, Matrix.vecTail]
    linear_combination (-2) * E.r5 - 2 * E.c5 + 2 * E.k3 + 2 * E.k7
      - M 0 2 * (E.r1 + E.r2 + E.r3 + 2 * E.k1 + 2 * E.k5 + 2 * E.k9)
  have h10 : frameToMatrix frameA (rotateFrame (matrixToRotor M) frameA) 1 0 = M 1 0 := by
    simp only [frameToMatrix, Matrix.of_apply, rotateFrame, matrixToRotor]
    rw [smul_sandwich, mul_smul_left, smul_s, hc2, inv_mul_eq_iff_eq_mul₀ hN,
      normSq_Scol, Scol_eq]
    simp [MV.mul, MV.rev, frameA, e1mv, e2mv, e3mv, Matrix.vecHead, Matrix.vecTail]
    linear_combination (-2) * E.r4 - 2 * E.c4 + 2 * E.k2 + 2 * E.k4
      - M 1 0 * (E.r1 + E.r2 + E.r3 + 2 * E.k1 + 2 * E.k5 + 2 * E.k9)
  have h11 : frameToMatrix frameA (rotateFrame (matrixToRotor M) frameA) 1 1 = M 1 1 := by
    simp only [frameToMatrix, Matrix.of_apply, rotateFrame, matrixToRotor]
    rw [smul_sandwich, mul_smul_left, smul_s, hc2, inv_mul_eq_iff_eq_mul₀ hN,
      normSq_Scol, Scol_eq]
    simp [MV.mul, MV.rev, frameA, e1mv, e2mv, e3mv, Matrix.vecHead, Matrix.vecTail]
    linear_combination (-1) * E.r2 - 2 * E.c2 + E.r1 + E.r3 + 2 * E.k5 - 2 * E.k1
      - 2 * E.k9 - M 1 1 * (E.r1 + E.r2 + E.r3 + 2 * E.k1 + 2 * E.k5 + 2 * E.k9)
  have h12 : frameToMatrix frameA (rotateFrame (matrixToRotor M) frameA) 1 2 = M 1 2 := by
    simp only [frameToMatrix, Matrix.of_apply, rotateFrame, matrixToRotor]
    rw [smul_sandwich, mul_smul_left, smul_s, hc2, inv_mul_eq_iff_eq_mul₀ hN,
      normSq_Scol, Scol_eq]
    simp [MV.mul, MV.rev, frameA, e1mv, e2mv, e3mv, Matrix.vecHead, Matrix.vecTail]
    linear_combination (-2) * E.r6 - 2 * E.c6 + 2 * E.k8 + 2 * E.k6
      - M 1 2 * (E.r1 + E.r2 + E.r3 + 2 * E.k1 + 2 * E.k5 + 2 * E.k9)
  have h20 : frameToMatrix frameA (rotateFrame (matrixToRotor M) frameA) 2 0 = M 2 0 := by
    simp only [frameToMatrix, Matrix.of_apply, rotateFrame, matrixToRotor]
    rw [smul_sandwich, mul_smul_left, smul_s, hc2, inv_mul_eq_iff_eq_mul₀ hN,
      normSq_Scol, Scol_eq]
    simp [MV.mul, MV.rev, frameA, e1mv, e2mv, e3mv, Matrix.vecHead, Matrix.vecTail]
    linear_combination (-2) * E.r5 - 2 * E.c5 + 2 * E.k3 + 2 * E.k7
      - M 2 0 * (E.r1 + E.r2 + E.r3 + 2 * E.k1 + 2 * E.k5 + 2 * E.k9)
  have h21 : frameToMatrix frameA (rotateFrame (matrixToRotor M) frameA) 2 1 = M 2 1 := by
    simp only [frameToMatrix, Matrix.of_apply, rotateFrame, matrixToRotor]
    rw [smul_sandwich, mul_smul_left, smul_s, hc2, inv_mul_eq_iff_eq_mul₀ hN,
      normSq_Scol, Scol_eq]
    simp [MV.mul, MV.rev, frameA, e1mv, e2mv, e3mv, Matrix.vecHead, Matrix.vecTail]
    linear_combination (-2) * E.r6 - 2 * E.c6 + 2 * E.k8 + 2 * E.k6
      - M 2 1 * (E.r1 + E.r2 + E.r3 + 2 * E.k1 + 2 * E.k5 + 2 * E.k9)
  have h22 : frameToMatrix frameA (rotateFrame (matrixToRotor M) frameA) 2 2 = M 2 2 := by
    simp only [frameToMatrix, Matrix.of_apply, rotateFrame, matrixToRotor]
    rw [smul_sandwich, mul_smul_left, smul_s, hc2, inv_mul_eq_iff_eq_mul₀ hN,
      normSq_Scol, Scol_eq]
    simp [MV.mul, MV.rev, frameA, e1mv, e2mv, e3mv, Matrix.vecHead, Matrix.vecTail]
    linear_combination (-1) * E.r3 - 2 * E.c3 + E.r1 + E.r2 + 2 * E.k9 - 2 * E.k1
      - 2 * E.k5 - M 2 2 * (E.r1 + E.r2 + E.r3 + 2 * E.k1 + 2 * E.k5 + 2 * E.k9)
  ext i j
  fin_cases i <;> fin_cases j <;> assumption

/-- Witness for C4 at the identity rotation matrix. -/
theorem C4_matrix_rotor_roundtrip_witness :
    frameToMatrix frameA (rotateFrame (matrixToRotor (1 : Matrix (Fin 3) (Fin 3) ℝ)) frameA)
      = 1 := by
  have hS : MV.absMV (Scol (1 : Matrix (Fin 3) (Fin 3) ℝ)) ≠ 0 := by
    rw [MV.absMV, Real.sqrt_ne_zero', normSq_Scol]
    norm_num [Matrix.one_apply, Fin.ext_iff]
  exact C4_matrix_rotor_roundtrip 1 (by simp) (by simp) hS

/-- C10: for every proper rotation matrix with `|S| ≠ 0`, the rotor
returned by `matrixToRotor` has scalar part `(1 + trace M)/|S|`, which is
nonnegative — of the two rotors `±R` for the same rotation, the conversion
picks the one with scalar part `≥ 0`. -/
theorem C10_scalar_part_nonneg (M : Matrix (Fin 3) (Fin 3) ℝ)
    (hM : Mᵀ * M = 1) (hdet : M.det = 1) (hS : MV.absMV (Scol M) ≠ 0) :
    (matrixToRotor M).s = (1 + M 0 0 + M 1 1 + M 2 2) / MV.absMV (Scol M) ∧
      0 ≤ (matrixToRotor M).s := by
  obtain E := orthoEqs M hM hdet
  have htr : 0 ≤ 1 + M 0 0 + M 1 1 + M 2 2 := by
    have h4 : 4 * (1 + M 0 0 + M 1 1 + M 2 2) = MV.normSq (Scol M) := by
      rw [normSq_Scol]
      linear_combination (-1) * (E.r1 + E.r2 + E.r3 + 2 * E.k1 + 2 * E.k5 + 2 * E.k9)
    nlinarith [normSq_nonneg (Scol M)]
  have hscal : (Scol M).s = 1 + M 0 0 + M 1 1 + M 2 2 := by
    rw [Scol_eq]
  have hs_eq : (matrixToRotor M).s =
      (1 + M 0 0 + M 1 1 + M 2 2) / MV.absMV (Scol M) := by
    unfold matrixToRotor
    rw [smul_s, hscal, div_eq_mul_inv]
    ring
  refine ⟨hs_eq, ?_⟩
  rw [hs_eq]
  exact div_nonneg htr (Real.sqrt_nonneg _)

/-- Witness for C10 at the identity rotation matrix. -/
theorem C10_scalar_part_nonneg_witness :
    (matrixToRotor (1 : Matrix (Fin 3) (Fin 3) ℝ)).s =
        (1 + (1 : Matrix (Fin 3) (Fin 3) ℝ) 0 0 + (1 : Matrix (Fin 3) (Fin 3) ℝ) 1 1
          + (1 : Matrix (Fin 3) (Fin 3) ℝ) 2 2) /
          MV.absMV (Scol (1 : Matrix (Fin 3) (Fin 3) ℝ)) ∧
      0 ≤ (matrixToRotor (1 : Matrix (Fin 3) (Fin 3) ℝ)).s := by
  have hS : MV.absMV (Scol (1 : Matrix (Fin 3) (Fin 3) ℝ)) ≠ 0 := by
    rw [MV.absMV, Real.sqrt_ne_zero', normSq_Scol]
    norm_num [Matrix.one_apply, Fin.ext_iff]
  exact C10_scalar_part_nonneg 1 (by simp) (by simp) hS
